import Mathlib

set_option maxRecDepth 8000

namespace InspectRoundsSchema

/-! Shallow embedding of src/Index/inspect_rounds_schema.py.

The script reads a directory of JSON files, accumulates key/value
statistics over a bounded sample of records, and prints a four-section
textual report.  JSON numbers are modelled as integers (no claim depends
on numeric values beyond storing and rendering them). -/

/-- A parsed JSON value, as produced by json.load.  Objects keep their
fields in insertion order, as Python dicts do; parsed objects have
pairwise-distinct keys. -/
inductive JSON where
  | null : JSON
  | bool (b : Bool) : JSON
  | num (n : Int) : JSON
  | str (s : String) : JSON
  | arr (elems : List JSON) : JSON
  | obj (fields : List (String × JSON)) : JSON

/-- Python truthiness of a parsed JSON value: None, False, 0, the empty
string, the empty list and the empty dict are falsy. -/
def JSON.truthy : JSON → Bool
  | .null => false
  | .bool b => b
  | .num n => n != 0
  | .str s => s != ""
  | .arr xs => !xs.isEmpty
  | .obj fs => !fs.isEmpty

/-- Python dict.get(k): the stored value, or None when the key is absent. -/
def dictGet (fs : List (String × JSON)) (k : String) : JSON :=
  match fs.lookup k with
  | some v => v
  | none => .null

/-- Python `a or b`: a when a is truthy, otherwise b. -/
def pyOr (a b : JSON) : JSON := if a.truthy then a else b

/-- Lines 32-35 of the script: for a dict,
`rounds = data.get("rounds") or data.get("data") or data.get("items") or []`;
for any other top-level value, `rounds = data`. -/
def resolveRounds (data : JSON) : JSON :=
  match data with
  | .obj fs =>
      pyOr (dictGet fs "rounds")
        (pyOr (dictGet fs "data") (pyOr (dictGet fs "items") (.arr [])))
  | d => d

/-- An insertion-ordered counter (Python collections.Counter): increment
the entry for k in place, or append a fresh entry with count 1. -/
def bump {α : Type} [DecidableEq α] (l : List (α × Nat)) (k : α) : List (α × Nat) :=
  match l with
  | [] => [(k, 1)]
  | (a, n) :: rest => if a = k then (a, n + 1) :: rest else (a, n) :: bump rest k

/-- The count stored for k (0 when absent). -/
def countOf {α : Type} [DecidableEq α] (l : List (α × Nat)) (k : α) : Nat :=
  match l with
  | [] => 0
  | (a, n) :: rest => if a = k then n else countOf rest k

/-- Lines 48-49 of the script, on the defaultdict(list) sample_values:
`if len(sample_values[k]) < 5: sample_values[k].append(v)` (the
defaultdict access creates an empty list for an absent key). -/
def addSample (l : List (String × List JSON)) (k : String) (v : JSON) :
    List (String × List JSON) :=
  match l with
  | [] => [(k, [v])]
  | (a, vs) :: rest =>
      if a = k then (a, if vs.length < 5 then vs ++ [v] else vs) :: rest
      else (a, vs) :: addSample rest k v

/-- The sample list stored for k ([] when absent). -/
def samplesOf (l : List (String × List JSON)) (k : String) : List JSON :=
  match l with
  | [] => []
  | (a, vs) :: rest => if a = k then vs else samplesOf rest k

/-- The three in-process accumulators of the script: key_counts,
sample_values and round_shapes, each in insertion order. -/
structure Stats where
  keyCounts : List (String × Nat)
  sampleValues : List (String × List JSON)
  roundShapes : List (List String × Nat)

def initStats : Stats := ⟨[], [], []⟩

/-- Lexicographic comparison of character lists by code point — the order
Python's sorted() applies to strings. -/
def listCharLe : List Char → List Char → Bool
  | [], _ => true
  | _ :: _, [] => false
  | a :: as, b :: bs =>
      if a.toNat < b.toNat then true
      else if b.toNat < a.toNat then false
      else listCharLe as bs

def strLe (a b : String) : Bool := listCharLe a.data b.data

/-- strLe as a decidable relation, for the sorting lemmas. -/
def strLeRel (a b : String) : Prop := strLe a b = true

instance : DecidableRel strLeRel := fun a b => instDecidableEqBool (strLe a b) true

/-- Line 43: `keys = tuple(sorted(r.keys()))` — the record's keys in
ascending lexicographic order. -/
def fingerprint (r : List (String × JSON)) : List String :=
  List.insertionSort strLeRel (r.map Prod.fst)

/-- Lines 46-49, one iteration of `for k, v in r.items()`. -/
def pairsStep (st : Stats) (kv : String × JSON) : Stats :=
  { st with keyCounts := bump st.keyCounts kv.1,
            sampleValues := addSample st.sampleValues kv.1 kv.2 }

/-- Lines 43-49: accumulate one record (a dict): bump its shape
fingerprint, then visit every (key, value) pair in order. -/
def processRecord (st : Stats) (r : List (String × JSON)) : Stats :=
  r.foldl pairsStep { st with roundShapes := bump st.roundShapes (fingerprint r) }

/-- Lines 32-42: resolve the record sequence of one parsed file, skip the
file unless it is a non-empty list, then accumulate the first 25 entries,
silently discarding entries that are not dicts. -/
def processFile (st : Stats) (data : JSON) : Stats :=
  match resolveRounds data with
  | .arr rs =>
      if rs.isEmpty then st
      else (rs.take 25).foldl
        (fun st r =>
          match r with
          | .obj fields => processRecord st fields
          | _ => st) st
  | _ => st

/-- The accumulation phase over the stream of sampled records, from
empty statistics. -/
def processRecords (rs : List (List (String × JSON))) : Stats :=
  rs.foldl processRecord initStats

/-- The flat stream of (key, value) pairs the accumulation loop visits,
in encounter order. -/
def recordPairs (rs : List (List (String × JSON))) : List (String × JSON) :=
  rs.flatMap id

/-- The values stored under key k across the pair stream, in encounter
order. -/
def occValues (k : String) (rs : List (List (String × JSON))) : List JSON :=
  ((recordPairs rs).filter (fun p => p.1 == k)).map Prod.snd

/-- Substring test on character lists: does pat occur at the start? -/
def startsWithL : List Char → List Char → Bool
  | [], _ => true
  | _ :: _, [] => false
  | a :: as, b :: bs => a == b && startsWithL as bs

/-- Substring test on character lists: does pat occur anywhere? -/
def containsL (pat : List Char) : List Char → Bool
  | [] => startsWithL pat []
  | c :: cs => startsWithL pat (c :: cs) || containsL pat cs

/-- Python `pat in s` on strings (substring containment). -/
def strContains (s pat : String) : Bool := containsL pat.data s.data

/-- Python `s.endswith(pat)`. -/
def endsWithStr (s pat : String) : Bool :=
  startsWithL pat.data.reverse s.data.reverse

/-- Python `k.lower()` (ASCII case folding, which covers the keys the
script targets). -/
def lowerStr (s : String) : String := ⟨s.data.map Char.toLower⟩

/-- Line 65: `"date" in lk or "time" in lk`. -/
def isDateKey (k : String) : Bool :=
  strContains (lowerStr k) "date" || strContains (lowerStr k) "time"

/-- Line 67: `"score" in lk or "strokes" in lk or lk in ("r1","r2","r3","r4")`. -/
def isScoreKey (k : String) : Bool :=
  strContains (lowerStr k) "score" || strContains (lowerStr k) "strokes" ||
    (lowerStr k == "r1" || lowerStr k == "r2" || lowerStr k == "r3" ||
      lowerStr k == "r4")

/-- Line 69: `"course" in lk or "club" in lk or "venue" in lk`. -/
def isCourseKey (k : String) : Bool :=
  strContains (lowerStr k) "course" || strContains (lowerStr k) "club" ||
    strContains (lowerStr k) "venue"

/-- Line 71: `"tournament" in lk or "event" in lk`. -/
def isTournamentKey (k : String) : Bool :=
  strContains (lowerStr k) "tournament" || strContains (lowerStr k) "event"

/-- The four heuristic groups of line 62, in dict insertion order. -/
structure Candidates where
  date : List String
  score : List String
  course : List String
  tournament : List String
deriving DecidableEq, Repr

/-- Lines 63-72, one iteration of the classification loop: append the key
to every group whose predicate it satisfies. -/
def heuristicsStep (c : Candidates) (k : String) : Candidates :=
  let c1 := if isDateKey k then { c with date := c.date ++ [k] } else c
  let c2 := if isScoreKey k then { c1 with score := c1.score ++ [k] } else c1
  let c3 := if isCourseKey k then { c2 with course := c2.course ++ [k] } else c2
  if isTournamentKey k then { c3 with tournament := c3.tournament ++ [k] } else c3

/-- Lines 62-72: classify every encountered key. -/
def heuristics (keys : List String) : Candidates :=
  keys.foldl heuristicsStep ⟨[], [], [], []⟩

/-- The ranking Counter.most_common sorts by: later entry's count at most
the earlier entry's count (descending counts). -/
def byCountDesc {α : Type} (p q : α × Nat) : Prop := q.2 ≤ p.2

instance {α : Type} : DecidableRel (byCountDesc (α := α)) :=
  fun p q => Nat.decLe q.2 p.2

/-- Counter.most_common(n): a stable sort of the entries by count,
descending (documented as equivalent to
sorted(items, key=count, reverse=True)[:n], where sorted is stable), then
the first n. -/
def sortByCountDesc {α : Type} (l : List (α × Nat)) : List (α × Nat) :=
  List.insertionSort byCountDesc l

def mostCommon {α : Type} (l : List (α × Nat)) (n : Nat) : List (α × Nat) :=
  (sortByCountDesc l).take n

/-- The character written with an apostrophe. -/
def quoteChar : Char := Char.ofNat 39

/-- The backslash character. -/
def backslashChar : Char := Char.ofNat 92

/-- Python repr escaping of one character inside a quoted string (quote
and backslash only; control-character escapes are not modelled). -/
def escChar (c : Char) : List Char :=
  if c = backslashChar then [backslashChar, backslashChar]
  else if c = quoteChar then [backslashChar, quoteChar]
  else [c]

def pyEscape (s : String) : String :=
  ⟨s.data.foldr (fun c acc => escChar c ++ acc) []⟩

def pyQuote (s : String) : String := "'" ++ pyEscape s ++ "'"

def joinComma (parts : List String) : String := String.intercalate ", " parts

mutual

/-- Python repr() of a parsed JSON value: None/True/False, ints,
quoted strings, lists and dicts. -/
def pyRepr : JSON → String
  | .null => "None"
  | .bool true => "True"
  | .bool false => "False"
  | .num n => toString n
  | .str s => pyQuote s
  | .arr xs => "[" ++ joinComma (pyReprList xs) ++ "]"
  | .obj fs => "\x7b" ++ joinComma (pyReprFields fs) ++ "\x7d"

def pyReprList : List JSON → List String
  | [] => []
  | x :: xs => pyRepr x :: pyReprList xs

def pyReprFields : List (String × JSON) → List String
  | [] => []
  | (k, v) :: rest => (pyQuote k ++ ": " ++ pyRepr v) :: pyReprFields rest

end

/-- Python str() as print() applies it: strings are printed bare, every
other value through repr. -/
def pyStr : JSON → String
  | .str s => s
  | v => pyRepr v

/-- repr of a Python list of strings, as f-string interpolation renders
the heuristic groups and shape key lists. -/
def pyReprStrList (ks : List String) : String :=
  "[" ++ joinComma (ks.map pyQuote) ++ "]"

/-- f-string left-justified padding `f"\x7bk:30\x7d"`. -/
def padTo (s : String) (w : Nat) : String :=
  s ++ ⟨List.replicate (w - s.length) ' '⟩

/-- Line 53: `f"\x7bk:30\x7d  \x7bc\x7d"`. -/
def topKeyLine (k : String) (c : Nat) : String :=
  padTo k 30 ++ "  " ++ toString c

/-- Lines 51-53: header and the top-40 key lines. -/
def reportSection1 (st : Stats) : List String :=
  "\n=== TOP KEYS (most common) ===" ::
    (mostCommon st.keyCounts 40).map (fun e => topKeyLine e.1 e.2)

/-- Lines 55-59: for the first 30 keys in encounter order, the key header
and up to 5 sample values (print("  ", v) joins its arguments with one
space). -/
def reportSection2 (st : Stats) : List String :=
  "\n=== SAMPLE VALUES (first few) ===" ::
    ((st.keyCounts.map Prod.fst).take 30).flatMap (fun k =>
      ("\n" ++ k ++ ":") ::
        ((samplesOf st.sampleValues k).take 5).map (fun v => "  " ++ " " ++ pyStr v))

/-- Lines 74-76: the four heuristic groups, in dict insertion order. -/
def reportSection3 (st : Stats) : List String :=
  let c := heuristics (st.keyCounts.map Prod.fst)
  ["\n=== HEURISTIC FIELD CANDIDATES ===",
    "date: " ++ pyReprStrList c.date,
    "score: " ++ pyReprStrList c.score,
    "course: " ++ pyReprStrList c.course,
    "tournament: " ++ pyReprStrList c.tournament]

/-- Lines 78-81: the 5 most common shape fingerprints with their counts. -/
def reportSection4 (st : Stats) : List String :=
  "\n=== MOST COMMON ROUND SHAPES (key sets) ===" ::
    (mostCommon st.roundShapes 5).flatMap (fun e =>
      ["\nCount: " ++ toString e.2, "Keys:" ++ " " ++ pyReprStrList e.1])

/-- The full report: the four sections, printed in order after the
accumulation loop finishes. -/
def report (st : Stats) : List String :=
  reportSection1 st ++ reportSection2 st ++ reportSection3 st ++ reportSection4 st

/-- Line 4: the configured directory constant. -/
def ROUNDS_DIR : String := "rounds"

/-- Line 13: the SystemExit message for a missing directory. -/
def msgMissingDir : String :=
  "Could not find folder: " ++ ROUNDS_DIR ++ ". Update ROUNDS_DIR in the script."

/-- Line 17: the SystemExit message for a directory without .json files. -/
def msgNoJsonFiles : String :=
  "No .json files found in " ++ ROUNDS_DIR

/-- Outcome of one run.  configError models the SystemExit raised before
any print; parseError models an uncaught json.JSONDecodeError carrying
the lines printed before the exception (the parse loop precedes every
print, so that list is built empty); ok carries the printed report. -/
inductive RunResult where
  | configError (msg : String) : RunResult
  | parseError (printed : List String) : RunResult
  | ok (printed : List String) : RunResult

/-- The lines actually written to stdout by a run. -/
def printedLines : RunResult → List String
  | .configError _ => []
  | .parseError ls => ls
  | .ok ls => ls

/-- Lines 26-49: the accumulation loop.  Each file is parsed as it is
reached; a file that fails to parse (modelled as none) raises out of the
loop. -/
def accumFiles (st : Stats) : List (String × Option JSON) → Option Stats
  | [] => some st
  | (_, none) :: _ => none
  | (_, some d) :: rest => accumFiles (processFile st d) rest

/-- Lines 15-20: the directory entries kept for processing — names ending
in ".json", capped at the first 200. -/
def selectedFiles (entries : List (String × Option JSON)) :
    List (String × Option JSON) :=
  (entries.filter (fun e => endsWithStr e.1 ".json")).take 200

/-- main() (lines 11-81).  dirExists models os.path.isdir(ROUNDS_DIR);
entries models the directory listing in listing order, pairing each file
name with its parse outcome (none = invalid JSON). -/
def run (dirExists : Bool) (entries : List (String × Option JSON)) : RunResult :=
  if !dirExists then .configError msgMissingDir
  else if (entries.filter (fun e => endsWithStr e.1 ".json")).isEmpty then
    .configError msgNoJsonFiles
  else
    match accumFiles initStats (selectedFiles entries) with
    | none => .parseError []
    | some st => .ok (report st)

/-- Total number of accumulation events a counter has recorded. -/
def totalCount {α : Type} (l : List (α × Nat)) : Nat := (l.map Prod.snd).sum

/-- Appending new values to a sample list capped at 5: values are taken
while the length stays below 5. -/
def capSamples (old new : List JSON) : List JSON :=
  old ++ new.take (5 - old.length)

/-- The keys of a pair stream in first-encounter order. -/
def firstSeenKeys (ps : List (String × JSON)) : List String :=
  ps.foldl (fun acc p => if p.1 ∈ acc then acc else acc ++ [p.1]) []

/-- The claim's reading of lines 32-35: for a mapping, the value of the
first alias key present in the mapping is used, even when that value is
an empty sequence; when no alias is present the record sequence is empty. -/
def resolveRoundsClaim (data : JSON) : JSON :=
  match data with
  | .obj fs =>
      match fs.lookup "rounds" with
      | some v => v
      | none =>
          match fs.lookup "data" with
          | some v => v
          | none =>
              match fs.lookup "items" with
              | some v => v
              | none => .arr []
  | d => d

/-- The amended reading of lines 32-35: for a mapping, the value of the
first alias key (in order rounds, data, items) whose value is present and
truthy is used; an alias present with a falsy value (such as an empty
sequence) is skipped; when no alias has a truthy value the record
sequence is empty. -/
def resolveRoundsAmended (data : JSON) : JSON :=
  match data with
  | .obj fs =>
      match (["rounds", "data", "items"].map (dictGet fs)).find? JSON.truthy with
      | some v => v
      | none => .arr []
  | d => d

/-- Concrete mapping separating the claim's alias resolution from the
script's: the first alias is present but holds an empty sequence. -/
def aliasCex : JSON :=
  .obj [("rounds", .arr []), ("data", .arr [.obj [("a", .num 1)]])]

/-- Six single-key records, more than the sample cap. -/
def sampleRecords : List (List (String × JSON)) :=
  [[("k", .num 0)], [("k", .num 1)], [("k", .num 2)],
    [("k", .num 3)], [("k", .num 4)], [("k", .num 5)]]

/-! Order properties of the code-point comparison. -/

theorem charToNat_inj {a b : Char} (h : a.toNat = b.toNat) : a = b := by
  have hv : a.val = b.val := by
    unfold Char.toNat at h
    exact UInt32.toNat.inj h
  exact Char.eq_of_val_eq hv

theorem listCharLe_total : ∀ as bs : List Char,
    listCharLe as bs = true ∨ listCharLe bs as = true
  | [], bs => by left; simp [listCharLe]
  | a :: as, [] => by right; simp [listCharLe]
  | a :: as, b :: bs => by
      simp only [listCharLe]
      rcases Nat.lt_trichotomy a.toNat b.toNat with h | h | h
      · left; simp [h]
      · have h2 : ¬ a.toNat < b.toNat := by omega
        have h3 : ¬ b.toNat < a.toNat := by omega
        rcases listCharLe_total as bs with ih | ih
        · left; simp [h2, h3, ih]
        · right; simp [h2, h3, ih]
      · right; simp [h]

theorem listCharLe_trans : ∀ as bs cs : List Char,
    listCharLe as bs = true → listCharLe bs cs = true → listCharLe as cs = true
  | [], _, _ => by simp [listCharLe]
  | a :: as, [], cs => by simp [listCharLe]
  | a :: as, b :: bs, [] => by simp [listCharLe]
  | a :: as, b :: bs, c :: cs => by
      simp only [listCharLe]
      intro h1 h2
      split at h1
      · split at h2
        · simp [show a.toNat < c.toNat by omega]
        · split at h2
          · exact absurd h2 (by simp)
          · simp [show a.toNat < c.toNat by omega]
      · split at h1
        · exact absurd h1 (by simp)
        · split at h2
          · simp [show a.toNat < c.toNat by omega]
          · split at h2
            · exact absurd h2 (by simp)
            · have hac1 : ¬ a.toNat < c.toNat := by omega
              have hac2 : ¬ c.toNat < a.toNat := by omega
              simp [hac1, hac2, listCharLe_trans as bs cs h1 h2]

theorem listCharLe_antisymm : ∀ as bs : List Char,
    listCharLe as bs = true → listCharLe bs as = true → as = bs
  | [], [] => by simp
  | [], _ :: _ => by simp [listCharLe]
  | _ :: _, [] => by simp [listCharLe]
  | a :: as, b :: bs => by
      simp only [listCharLe]
      intro h1 h2
      rcases Nat.lt_trichotomy a.toNat b.toNat with h | h | h
      · rw [if_neg (show ¬ b.toNat < a.toNat by omega), if_pos h] at h2
        exact absurd h2 (by simp)
      · rw [if_neg (show ¬ a.toNat < b.toNat by omega),
          if_neg (show ¬ b.toNat < a.toNat by omega)] at h1
        rw [if_neg (show ¬ b.toNat < a.toNat by omega),
          if_neg (show ¬ a.toNat < b.toNat by omega)] at h2
        rw [charToNat_inj h, listCharLe_antisymm as bs h1 h2]
      · rw [if_neg (show ¬ a.toNat < b.toNat by omega), if_pos h] at h1
        exact absurd h1 (by simp)

instance : IsTotal String strLeRel :=
  ⟨fun a b => listCharLe_total a.data b.data⟩

instance : IsTrans String strLeRel :=
  ⟨fun a b c => listCharLe_trans a.data b.data c.data⟩

instance : IsAntisymm String strLeRel :=
  ⟨fun a b h1 h2 =>
    congrArg String.mk (listCharLe_antisymm a.data b.data h1 h2)⟩

/-! Counter and sample-cache lemmas. -/

theorem countOf_bump_self {α : Type} [DecidableEq α] (l : List (α × Nat)) (k : α) :
    countOf (bump l k) k = countOf l k + 1 := by
  induction l with
  | nil => simp [bump, countOf]
  | cons p rest ih =>
      obtain ⟨a, n⟩ := p
      by_cases h : a = k <;> simp [bump, countOf, h, ih]

theorem countOf_bump_ne {α : Type} [DecidableEq α] (l : List (α × Nat)) {j k : α}
    (h : j ≠ k) : countOf (bump l j) k = countOf l k := by
  induction l with
  | nil => simp [bump, countOf, h]
  | cons p rest ih =>
      obtain ⟨a, n⟩ := p
      by_cases ha : a = j
      · subst ha; simp [bump, countOf, h, ih]
      · by_cases hk : a = k <;>
          simp [bump, countOf, ha, hk, ih, Ne.symm h]

theorem totalCount_bump {α : Type} [DecidableEq α] (l : List (α × Nat)) (k : α) :
    totalCount (bump l k) = totalCount l + 1 := by
  induction l with
  | nil => simp [bump, totalCount]
  | cons p rest ih =>
      obtain ⟨a, n⟩ := p
      by_cases h : a = k <;> simp [bump, totalCount, h] <;>
        simp [totalCount] at ih <;> omega

theorem mapFst_bump {α : Type} [DecidableEq α] (l : List (α × Nat)) (k : α) :
    (bump l k).map Prod.fst =
      if k ∈ l.map Prod.fst then l.map Prod.fst else l.map Prod.fst ++ [k] := by
  induction l with
  | nil => simp [bump]
  | cons p rest ih =>
      obtain ⟨a, n⟩ := p
      by_cases h : a = k
      · simp [bump, h]
      · have hne : ¬ k = a := fun hk => h hk.symm
        by_cases hm : k ∈ rest.map Prod.fst <;>
          simp [bump, h, ih, hm, List.mem_cons, hne]

theorem samplesOf_addSample_self (l : List (String × List JSON)) (k : String)
    (v : JSON) :
    samplesOf (addSample l k v) k =
      (if (samplesOf l k).length < 5 then samplesOf l k ++ [v] else samplesOf l k) := by
  induction l with
  | nil => simp [addSample, samplesOf]
  | cons p rest ih =>
      obtain ⟨a, vs⟩ := p
      by_cases h : a = k <;> simp [addSample, samplesOf, h, ih]

theorem samplesOf_addSample_ne (l : List (String × List JSON)) {j k : String}
    (v : JSON) (h : j ≠ k) : samplesOf (addSample l j v) k = samplesOf l k := by
  induction l with
  | nil => simp [addSample, samplesOf, h]
  | cons p rest ih =>
      obtain ⟨a, vs⟩ := p
      by_cases ha : a = j
      · subst ha; simp [addSample, samplesOf, h, ih]
      · by_cases hk : a = k <;>
          simp [addSample, samplesOf, ha, hk, ih, Ne.symm h]

theorem capSamples_append (a b c : List JSON) :
    capSamples (capSamples a b) c = capSamples a (b ++ c) := by
  unfold capSamples
  have h1 : 5 - (a ++ List.take (5 - a.length) b).length
      = 5 - a.length - b.length := by
    simp only [List.length_append, List.length_take]
    omega
  rw [h1, List.take_append_eq_append_take, List.append_assoc]

theorem capSamples_cons_left (old : List JSON) (v : JSON) (vs : List JSON) :
    capSamples (if old.length < 5 then old ++ [v] else old) vs =
      capSamples old (v :: vs) := by
  unfold capSamples
  by_cases h : old.length < 5
  · have h5 : 5 - old.length = (5 - (old.length + 1)) + 1 := by omega
    simp [h, h5, List.take_succ_cons, List.append_assoc]
  · have h0 : 5 - old.length = 0 := by omega
    simp [h, h0]

/-! Characterization of the accumulation pass. -/

theorem keyCounts_foldl_pairsStep (ps : List (String × JSON)) :
    ∀ st : Stats, (ps.foldl pairsStep st).keyCounts
      = ps.foldl (fun kc p => bump kc p.1) st.keyCounts := by
  induction ps with
  | nil => intro st; rfl
  | cons p ps ih => intro st; simpa using ih (pairsStep st p)

theorem sampleValues_foldl_pairsStep (ps : List (String × JSON)) :
    ∀ st : Stats, (ps.foldl pairsStep st).sampleValues
      = ps.foldl (fun sv p => addSample sv p.1 p.2) st.sampleValues := by
  induction ps with
  | nil => intro st; rfl
  | cons p ps ih => intro st; simpa using ih (pairsStep st p)

theorem roundShapes_foldl_pairsStep (ps : List (String × JSON)) :
    ∀ st : Stats, (ps.foldl pairsStep st).roundShapes = st.roundShapes := by
  induction ps with
  | nil => intro st; rfl
  | cons p ps ih => intro st; simpa using ih (pairsStep st p)

theorem countOf_foldl_bump (ps : List (String × JSON)) :
    ∀ (kc : List (String × Nat)) (k : String),
      countOf (ps.foldl (fun kc p => bump kc p.1) kc) k
        = countOf kc k + ps.countP (fun p => p.1 == k) := by
  induction ps with
  | nil => simp
  | cons p ps ih =>
      intro kc k
      simp only [List.foldl_cons, List.countP_cons]
      rw [ih]
      by_cases h : p.1 = k
      · simp [h, countOf_bump_self]; omega
      · simp [h, countOf_bump_ne kc h]

theorem samplesOf_foldl_addSample (ps : List (String × JSON)) :
    ∀ (sv : List (String × List JSON)) (k : String),
      samplesOf (ps.foldl (fun sv p => addSample sv p.1 p.2) sv) k
        = capSamples (samplesOf sv k)
            ((ps.filter (fun p => p.1 == k)).map Prod.snd) := by
  induction ps with
  | nil => simp [capSamples]
  | cons p ps ih =>
      intro sv k
      simp only [List.foldl_cons]
      rw [ih]
      by_cases h : p.1 = k
      · subst h
        rw [samplesOf_addSample_self, capSamples_cons_left]
        simp
      · rw [samplesOf_addSample_ne sv p.2 h]
        simp [h]

theorem mapFst_foldl_bump (ps : List (String × JSON)) :
    ∀ kc : List (String × Nat),
      (ps.foldl (fun kc p => bump kc p.1) kc).map Prod.fst
        = ps.foldl (fun acc p => if p.1 ∈ acc then acc else acc ++ [p.1])
            (kc.map Prod.fst) := by
  induction ps with
  | nil => simp
  | cons p ps ih =>
      intro kc
      simp only [List.foldl_cons]
      rw [ih, mapFst_bump]

theorem processRecord_keyCounts (st : Stats) (r : List (String × JSON)) :
    (processRecord st r).keyCounts
      = r.foldl (fun kc p => bump kc p.1) st.keyCounts := by
  unfold processRecord
  rw [keyCounts_foldl_pairsStep]

theorem processRecord_sampleValues (st : Stats) (r : List (String × JSON)) :
    (processRecord st r).sampleValues
      = r.foldl (fun sv p => addSample sv p.1 p.2) st.sampleValues := by
  unfold processRecord
  rw [sampleValues_foldl_pairsStep]

theorem processRecord_roundShapes (st : Stats) (r : List (String × JSON)) :
    (processRecord st r).roundShapes = bump st.roundShapes (fingerprint r) := by
  unfold processRecord
  rw [roundShapes_foldl_pairsStep]

theorem foldl_processRecord_keyCounts (rs : List (List (String × JSON))) :
    ∀ st : Stats, (rs.foldl processRecord st).keyCounts
      = (recordPairs rs).foldl (fun kc p => bump kc p.1) st.keyCounts := by
  induction rs with
  | nil => intro st; rfl
  | cons r rs ih =>
      intro st
      simp only [List.foldl_cons, recordPairs, List.flatMap_cons,
        List.foldl_append]
      rw [ih, processRecord_keyCounts]
      simp [recordPairs]

theorem foldl_processRecord_sampleValues (rs : List (List (String × JSON))) :
    ∀ st : Stats, (rs.foldl processRecord st).sampleValues
      = (recordPairs rs).foldl (fun sv p => addSample sv p.1 p.2) st.sampleValues := by
  induction rs with
  | nil => intro st; rfl
  | cons r rs ih =>
      intro st
      simp only [List.foldl_cons, recordPairs, List.flatMap_cons,
        List.foldl_append]
      rw [ih, processRecord_sampleValues]
      simp [recordPairs]

theorem countOf_processRecords (rs : List (List (String × JSON))) (k : String) :
    countOf (processRecords rs).keyCounts k
      = (recordPairs rs).countP (fun p => p.1 == k) := by
  rw [processRecords, foldl_processRecord_keyCounts, countOf_foldl_bump]
  simp [initStats, countOf]

theorem samplesOf_processRecords (rs : List (List (String × JSON))) (k : String) :
    samplesOf (processRecords rs).sampleValues k = (occValues k rs).take 5 := by
  rw [processRecords, foldl_processRecord_sampleValues, samplesOf_foldl_addSample]
  simp [initStats, samplesOf, capSamples, occValues]

theorem mapFst_processRecords (rs : List (List (String × JSON))) :
    (processRecords rs).keyCounts.map Prod.fst = firstSeenKeys (recordPairs rs) := by
  rw [processRecords, foldl_processRecord_keyCounts, mapFst_foldl_bump]
  simp [initStats, firstSeenKeys]

theorem totalCount_processRecord (st : Stats) (r : List (String × JSON)) :
    totalCount (processRecord st r).roundShapes = totalCount st.roundShapes + 1 := by
  rw [processRecord_roundShapes, totalCount_bump]

/-! Properties of the most_common ranking. -/

instance {α : Type} : IsTotal (α × Nat) byCountDesc :=
  ⟨fun a b => Nat.le_total b.2 a.2⟩

instance {α : Type} : IsTrans (α × Nat) byCountDesc :=
  ⟨fun _ _ _ hab hbc => Nat.le_trans hbc hab⟩

theorem sortByCountDesc_sorted {α : Type} (l : List (α × Nat)) :
    List.Sorted byCountDesc (sortByCountDesc l) :=
  List.sorted_insertionSort byCountDesc l

theorem sortByCountDesc_perm {α : Type} (l : List (α × Nat)) :
    (sortByCountDesc l).Perm l :=
  List.perm_insertionSort byCountDesc l

theorem filter_orderedInsert_byCount {α : Type} (x : α × Nat)
    (s : List (α × Nat)) (c : Nat) :
    (List.orderedInsert byCountDesc x s).filter (fun e => e.2 == c)
      = if x.2 == c then x :: s.filter (fun e => e.2 == c)
        else s.filter (fun e => e.2 == c) := by
  induction s with
  | nil =>
      cases hbe : x.2 == c
      · have hne : ¬ x.2 = c := by simpa using hbe
        simp [List.orderedInsert, List.filter, hbe, hne]
      · have heq : x.2 = c := by simpa using hbe
        simp [List.orderedInsert, List.filter, hbe, heq]
  | cons y ys ih =>
      by_cases hr : byCountDesc x y
      · rw [List.orderedInsert, if_pos hr]
        by_cases hx : x.2 == c <;> simp [List.filter_cons, hx]
      · rw [List.orderedInsert, if_neg hr]
        have hy : y.2 ≠ c ∨ ¬ x.2 == c := by
          by_cases hx : x.2 == c
          · left
            have hxc : x.2 = c := by simpa using hx
            have : x.2 < y.2 := Nat.lt_of_not_le hr
            omega
          · right; exact hx
        by_cases hx : x.2 == c
        · have hyc : ¬ y.2 == c := by
            rcases hy with h | h
            · simpa using h
            · exact absurd hx h
          simp [List.filter_cons, hyc, ih, hx]
        · by_cases hyc : y.2 == c <;> simp [List.filter_cons, hyc, ih, hx]

theorem filter_sortByCountDesc {α : Type} (l : List (α × Nat)) (c : Nat) :
    (sortByCountDesc l).filter (fun e => e.2 == c)
      = l.filter (fun e => e.2 == c) := by
  induction l with
  | nil => rfl
  | cons x l ih =>
      rw [sortByCountDesc, List.insertionSort]
      rw [show List.insertionSort byCountDesc l = sortByCountDesc l from rfl]
      rw [filter_orderedInsert_byCount, List.filter_cons]
      by_cases hx : x.2 == c <;> simp [hx, ih]

/-! Characterization of the heuristic classification. -/

theorem heuristicsStep_date (c : Candidates) (k : String) :
    (heuristicsStep c k).date
      = if isDateKey k then c.date ++ [k] else c.date := by
  unfold heuristicsStep
  by_cases h1 : isDateKey k <;> by_cases h2 : isScoreKey k <;>
    by_cases h3 : isCourseKey k <;> by_cases h4 : isTournamentKey k <;>
    simp [h1, h2, h3, h4]

theorem heuristicsStep_score (c : Candidates) (k : String) :
    (heuristicsStep c k).score
      = if isScoreKey k then c.score ++ [k] else c.score := by
  unfold heuristicsStep
  by_cases h1 : isDateKey k <;> by_cases h2 : isScoreKey k <;>
    by_cases h3 : isCourseKey k <;> by_cases h4 : isTournamentKey k <;>
    simp [h1, h2, h3, h4]

theorem heuristicsStep_course (c : Candidates) (k : String) :
    (heuristicsStep c k).course
      = if isCourseKey k then c.course ++ [k] else c.course := by
  unfold heuristicsStep
  by_cases h1 : isDateKey k <;> by_cases h2 : isScoreKey k <;>
    by_cases h3 : isCourseKey k <;> by_cases h4 : isTournamentKey k <;>
    simp [h1, h2, h3, h4]

theorem heuristicsStep_tournament (c : Candidates) (k : String) :
    (heuristicsStep c k).tournament
      = if isTournamentKey k then c.tournament ++ [k] else c.tournament := by
  unfold heuristicsStep
  by_cases h1 : isDateKey k <;> by_cases h2 : isScoreKey k <;>
    by_cases h3 : isCourseKey k <;> by_cases h4 : isTournamentKey k <;>
    simp [h1, h2, h3, h4]

theorem heuristics_foldl_date (keys : List String) :
    ∀ c : Candidates, (keys.foldl heuristicsStep c).date
      = c.date ++ keys.filter isDateKey := by
  induction keys with
  | nil => simp
  | cons k keys ih =>
      intro c
      simp only [List.foldl_cons, List.filter_cons]
      rw [ih, heuristicsStep_date]
      by_cases h : isDateKey k <;> simp [h]

theorem heuristics_foldl_score (keys : List String) :
    ∀ c : Candidates, (keys.foldl heuristicsStep c).score
      = c.score ++ keys.filter isScoreKey := by
  induction keys with
  | nil => simp
  | cons k keys ih =>
      intro c
      simp only [List.foldl_cons, List.filter_cons]
      rw [ih, heuristicsStep_score]
      by_cases h : isScoreKey k <;> simp [h]

theorem heuristics_foldl_course (keys : List String) :
    ∀ c : Candidates, (keys.foldl heuristicsStep c).course
      = c.course ++ keys.filter isCourseKey := by
  induction keys with
  | nil => simp
  | cons k keys ih =>
      intro c
      simp only [List.foldl_cons, List.filter_cons]
      rw [ih, heuristicsStep_course]
      by_cases h : isCourseKey k <;> simp [h]

theorem heuristics_foldl_tournament (keys : List String) :
    ∀ c : Candidates, (keys.foldl heuristicsStep c).tournament
      = c.tournament ++ keys.filter isTournamentKey := by
  induction keys with
  | nil => simp
  | cons k keys ih =>
      intro c
      simp only [List.foldl_cons, List.filter_cons]
      rw [ih, heuristicsStep_tournament]
      by_cases h : isTournamentKey k <;> simp [h]

theorem heuristics_date_eq (keys : List String) :
    (heuristics keys).date = keys.filter isDateKey := by
  rw [heuristics, heuristics_foldl_date]
  rfl

theorem heuristics_score_eq (keys : List String) :
    (heuristics keys).score = keys.filter isScoreKey := by
  rw [heuristics, heuristics_foldl_score]
  rfl

theorem heuristics_course_eq (keys : List String) :
    (heuristics keys).course = keys.filter isCourseKey := by
  rw [heuristics, heuristics_foldl_course]
  rfl

theorem heuristics_tournament_eq (keys : List String) :
    (heuristics keys).tournament = keys.filter isTournamentKey := by
  rw [heuristics, heuristics_foldl_tournament]
  rfl

/-! Run-level plumbing. -/

theorem accumFiles_eq_none (l : List (String × Option JSON)) :
    ∀ st : Stats, (∃ e ∈ l, e.2 = none) → accumFiles st l = none := by
  induction l with
  | nil => intro st h; simp at h
  | cons e rest ih =>
      intro st h
      obtain ⟨a, n⟩ := e
      cases n with
      | none => rfl
      | some d =>
          rw [accumFiles]
          apply ih
          rcases h with ⟨f, hf, hnone⟩
          rcases List.mem_cons.mp hf with h1 | h1
          · rw [h1] at hnone; simp at hnone
          · exact ⟨f, h1, hnone⟩

theorem totalCount_foldl_processRecord (l : List (List (String × JSON))) :
    ∀ st : Stats, totalCount ((l.foldl processRecord st).roundShapes)
      = totalCount st.roundShapes + l.length := by
  induction l with
  | nil => intro st; rfl
  | cons r l ih =>
      intro st
      simp only [List.foldl_cons, List.length_cons]
      rw [ih, totalCount_processRecord]
      omega

theorem countP_pairs_of_nodup (r : List (String × JSON)) (k : String)
    (h : (r.map Prod.fst).Nodup) :
    r.countP (fun p => p.1 == k) = if k ∈ r.map Prod.fst then 1 else 0 := by
  induction r with
  | nil => simp
  | cons p t ih =>
      obtain ⟨a, v⟩ := p
      simp only [List.map_cons, List.nodup_cons] at h
      obtain ⟨ha, ht⟩ := h
      by_cases hak : a = k
      · subst hak
        have hzero : t.countP (fun p => p.1 == a) = 0 := by
          rw [List.countP_eq_zero]
          intro q hq hqa
          exact ha (List.mem_map.mpr ⟨q, hq, by simpa using hqa⟩)
        simp [List.countP_cons, hzero]
      · have hka : ¬ k = a := fun hk => hak hk.symm
        by_cases hm : k ∈ List.map Prod.fst t <;>
          simp [List.countP_cons, hak, ih ht, List.mem_cons, hka, hm]

theorem countP_recordPairs (rs : List (List (String × JSON))) (k : String)
    (hnd : ∀ r ∈ rs, (r.map Prod.fst).Nodup) :
    (recordPairs rs).countP (fun p => p.1 == k)
      = rs.countP (fun r => decide (k ∈ r.map Prod.fst)) := by
  induction rs with
  | nil => rfl
  | cons r rs ih =>
      have hstep : recordPairs (r :: rs) = r ++ recordPairs rs := by
        simp [recordPairs]
      rw [hstep, List.countP_append, List.countP_cons,
        ih (fun q hq => hnd q (List.mem_cons_of_mem _ hq)),
        countP_pairs_of_nodup r k (hnd r (List.mem_cons_self r rs))]
      by_cases hm : k ∈ r.map Prod.fst <;> simp [hm, Nat.add_comm]

/-! The claims. -/

/-- C1, counterexample: for the mapping
`{"rounds": [], "data": [{"a": 1}]}`, whose first alias key "rounds" is
present but holds an empty sequence, the script resolves the record
sequence through "data"; the claim's resolution (first alias present,
even if empty) would return the empty sequence instead. -/
theorem c1_alias_counterexample :
    resolveRounds aliasCex ≠ resolveRoundsClaim aliasCex := by
  intro h
  rw [show resolveRounds aliasCex
      = JSON.arr [JSON.obj [("a", JSON.num 1)]] from rfl,
    show resolveRoundsClaim aliasCex = JSON.arr [] from rfl] at h
  simp at h

/-- C1, amended: for a mapping, the record sequence is the value of the
first alias key — in order "rounds", "data", "items" — whose value is
present and truthy; an alias present with a falsy value (e.g. an empty
sequence) is skipped; when no alias has a truthy value the record
sequence is empty.  For a non-mapping top level the value itself is
used. -/
theorem c1_alias_resolution_amended (data : JSON) :
    resolveRounds data = resolveRoundsAmended data := by
  cases data with
  | obj fs =>
      cases hr : (dictGet fs "rounds").truthy <;>
        cases hd : (dictGet fs "data").truthy <;>
          cases hi : (dictGet fs "items").truthy <;>
            simp [resolveRounds, resolveRoundsAmended, pyOr, List.find?,
              hr, hd, hi]
  | null => rfl
  | bool b => rfl
  | num n => rfl
  | str s => rfl
  | arr elems => rfl

/-- C2: a run against a missing directory stops with the configuration
error naming the directory and prints nothing; so does a run against an
existing directory whose listing has no name ending in ".json". -/
theorem c2_config_errors (entries : List (String × Option JSON)) :
    (run false entries = .configError msgMissingDir
      ∧ strContains msgMissingDir ROUNDS_DIR = true
      ∧ printedLines (run false entries) = [])
    ∧ ((∀ e ∈ entries, endsWithStr e.1 ".json" = false) →
        run true entries = .configError msgNoJsonFiles
          ∧ strContains msgNoJsonFiles ROUNDS_DIR = true
          ∧ printedLines (run true entries) = []) := by
  constructor
  · exact ⟨rfl, by decide, rfl⟩
  · intro h
    have hfilter : entries.filter (fun e => endsWithStr e.1 ".json") = [] := by
      rw [List.filter_eq_nil_iff]
      intro e he
      simp [h e he]
    refine ⟨?_, by decide, ?_⟩ <;> simp [run, hfilter, printedLines]

/-- C2 witness: a directory listing holding one non-JSON name. -/
theorem c2_config_errors_witness :
    run false [("notes.txt", some JSON.null)] = .configError msgMissingDir
      ∧ run true [("notes.txt", some JSON.null)] = .configError msgNoJsonFiles :=
  ⟨(c2_config_errors [("notes.txt", some JSON.null)]).1.1,
    ((c2_config_errors [("notes.txt", some JSON.null)]).2 (by decide)).1⟩

/-- C3: when at least one selected file (among the first 200 .json
entries) fails to parse, the run aborts with the propagated parse error
and prints no report section. -/
theorem c3_parse_error_aborts (entries : List (String × Option JSON))
    (hbad : ∃ e ∈ selectedFiles entries, e.2 = none) :
    run true entries = .parseError [] ∧ printedLines (run true entries) = [] := by
  obtain ⟨e, he, hnone⟩ := hbad
  have hmem : e ∈ entries.filter (fun e => endsWithStr e.1 ".json") :=
    List.take_subset 200 _ he
  have hne : entries.filter (fun e => endsWithStr e.1 ".json") ≠ [] :=
    List.ne_nil_of_mem hmem
  have hF : (entries.filter (fun e => endsWithStr e.1 ".json")).isEmpty = false := by
    cases hc : entries.filter (fun e => endsWithStr e.1 ".json") with
    | nil => exact absurd hc hne
    | cons a l => rfl
  have hacc : accumFiles initStats (selectedFiles entries) = none :=
    accumFiles_eq_none (selectedFiles entries) initStats ⟨e, he, hnone⟩
  have hrun : run true entries = .parseError [] := by
    simp [run, hF, hacc]
  exact ⟨hrun, by rw [hrun]; rfl⟩

/-- C3 witness: a single selected file with invalid JSON. -/
theorem c3_parse_error_aborts_witness :
    run true [("bad.json", none)] = .parseError []
      ∧ printedLines (run true [("bad.json", none)]) = [] :=
  c3_parse_error_aborts [("bad.json", none)]
    ⟨("bad.json", none), List.mem_singleton.mpr rfl, rfl⟩

/-- C4: for a file whose resolved record sequence is a non-empty list of
N mappings (given as field lists, in sequence order), processing the
file accumulates exactly those records: all N of them, in order, when
N ≤ 25, and exactly the first 25 in sequence order when N > 25 — with
one shape-counter event per accumulated record, so exactly N
(respectively 25) records enter the statistics. -/
theorem c4_per_file_record_cap (st : Stats) (data : JSON)
    (fs : List (List (String × JSON)))
    (hres : resolveRounds data = .arr (fs.map JSON.obj)) (hne : fs ≠ []) :
    (fs.length ≤ 25 →
      processFile st data = fs.foldl processRecord st
        ∧ totalCount (processFile st data).roundShapes
            = totalCount st.roundShapes + fs.length)
    ∧ (25 < fs.length →
      processFile st data = (fs.take 25).foldl processRecord st
        ∧ totalCount (processFile st data).roundShapes
            = totalCount st.roundShapes + 25) := by
  have hEm : (fs.map JSON.obj).isEmpty = false := by
    cases fs with
    | nil => exact absurd rfl hne
    | cons a l => rfl
  have hpf : processFile st data = (fs.take 25).foldl processRecord st := by
    unfold processFile
    rw [hres]
    simp only [hEm, Bool.false_eq_true, if_false, ← List.map_take,
      List.foldl_map]
  have hcount := totalCount_foldl_processRecord (fs.take 25) st
  have hlen : (fs.take 25).length = min 25 fs.length := List.length_take 25 fs
  constructor
  · intro h
    have htake : fs.take 25 = fs := List.take_of_length_le h
    rw [hpf, htake]
    exact ⟨rfl, by rw [htake] at hcount; omega⟩
  · intro h
    rw [hpf]
    refine ⟨rfl, ?_⟩
    rw [hcount, hlen]
    omega

/-- C4 witness: one file holding a single-record array. -/
theorem c4_per_file_record_cap_witness :
    processFile initStats (JSON.arr [JSON.obj [("a", JSON.num 1)]])
        = [[("a", JSON.num 1)]].foldl processRecord initStats
      ∧ totalCount (processFile initStats
            (JSON.arr [JSON.obj [("a", JSON.num 1)]])).roundShapes
          = totalCount initStats.roundShapes + 1 := by
  have h := (c4_per_file_record_cap initStats
      (JSON.arr [JSON.obj [("a", JSON.num 1)]]) [[("a", JSON.num 1)]]
      rfl (by simp)).1 (by decide)
  simpa using h

/-- C5: a key contained in more than 5 accumulated records (each record a
dict, so its keys are pairwise distinct) stores exactly the values of its
first 5 occurrences, in encounter order — a sample list of length
exactly 5. -/
theorem c5_sample_cap (rs : List (List (String × JSON))) (k : String)
    (hnd : ∀ r ∈ rs, (r.map Prod.fst).Nodup)
    (hcnt : 5 < rs.countP (fun r => decide (k ∈ r.map Prod.fst))) :
    samplesOf (processRecords rs).sampleValues k = (occValues k rs).take 5
      ∧ (samplesOf (processRecords rs).sampleValues k).length = 5 := by
  have hs := samplesOf_processRecords rs k
  have hlen : (occValues k rs).length
      = rs.countP (fun r => decide (k ∈ r.map Prod.fst)) := by
    rw [occValues, List.length_map, ← List.countP_eq_length_filter,
      countP_recordPairs rs k hnd]
  refine ⟨hs, ?_⟩
  rw [hs, List.length_take, hlen]
  omega

/-- C5 witness: six records holding the key "k". -/
theorem c5_sample_cap_witness :
    samplesOf (processRecords sampleRecords).sampleValues "k"
        = (occValues "k" sampleRecords).take 5
      ∧ (samplesOf (processRecords sampleRecords).sampleValues "k").length = 5 :=
  c5_sample_cap sampleRecords "k" (by decide) (by decide)

/-- C6: two records (dicts, so keys pairwise distinct) whose key sets are
equal as sets have the same shape fingerprint, and accumulating each of
them increments exactly that fingerprint's entry of the shape counter. -/
theorem c6_shape_fingerprint (st : Stats) (r1 r2 : List (String × JSON))
    (h1 : (r1.map Prod.fst).Nodup) (h2 : (r2.map Prod.fst).Nodup)
    (hset : ∀ x, x ∈ r1.map Prod.fst ↔ x ∈ r2.map Prod.fst) :
    fingerprint r1 = fingerprint r2
      ∧ countOf (processRecord st r1).roundShapes (fingerprint r1)
          = countOf st.roundShapes (fingerprint r1) + 1
      ∧ countOf (processRecord st r2).roundShapes (fingerprint r2)
          = countOf st.roundShapes (fingerprint r2) + 1 := by
  have hperm : (r1.map Prod.fst).Perm (r2.map Prod.fst) :=
    (List.perm_ext_iff_of_nodup h1 h2).mpr hset
  have hfp : fingerprint r1 = fingerprint r2 :=
    List.eq_of_perm_of_sorted
      (((List.perm_insertionSort strLeRel _).trans hperm).trans
        (List.perm_insertionSort strLeRel _).symm)
      (List.sorted_insertionSort strLeRel _)
      (List.sorted_insertionSort strLeRel _)
  exact ⟨hfp,
    by rw [processRecord_roundShapes, countOf_bump_self],
    by rw [processRecord_roundShapes, countOf_bump_self]⟩

/-- C6 witness: the same two keys in opposite insertion order. -/
theorem c6_shape_fingerprint_witness :
    fingerprint [("b", JSON.num 1), ("a", JSON.num 2)]
      = fingerprint [("a", JSON.str "x"), ("b", JSON.null)] :=
  (c6_shape_fingerprint initStats
    [("b", JSON.num 1), ("a", JSON.num 2)]
    [("a", JSON.str "x"), ("b", JSON.null)]
    (by decide) (by decide)
    (by intro x; simp [List.mem_cons]; tauto)).1

/-- C7: a key joins the date group iff its lowercase form contains "date"
or "time"; the score group iff it contains "score" or "strokes" or equals
(case-insensitively) "r1", "r2", "r3" or "r4"; the course group iff it
contains "course", "club" or "venue"; the tournament group iff it
contains "tournament" or "event"; groups may overlap:
"Tournament_Date" lands in date and tournament, "R1" in score. -/
theorem c7_heuristic_groups (keys : List String) (k : String) (hk : k ∈ keys) :
    (k ∈ (heuristics keys).date
        ↔ (strContains (lowerStr k) "date"
            || strContains (lowerStr k) "time") = true)
      ∧ (k ∈ (heuristics keys).score
        ↔ (strContains (lowerStr k) "score" || strContains (lowerStr k) "strokes"
            || (lowerStr k == "r1" || lowerStr k == "r2" || lowerStr k == "r3"
              || lowerStr k == "r4")) = true)
      ∧ (k ∈ (heuristics keys).course
        ↔ (strContains (lowerStr k) "course" || strContains (lowerStr k) "club"
            || strContains (lowerStr k) "venue") = true)
      ∧ (k ∈ (heuristics keys).tournament
        ↔ (strContains (lowerStr k) "tournament"
            || strContains (lowerStr k) "event") = true)
      ∧ "Tournament_Date" ∈ (heuristics ["Tournament_Date", "R1"]).date
      ∧ "Tournament_Date" ∈ (heuristics ["Tournament_Date", "R1"]).tournament
      ∧ "R1" ∈ (heuristics ["Tournament_Date", "R1"]).score := by
  refine ⟨?_, ?_, ?_, ?_, by decide, by decide, by decide⟩
  · rw [heuristics_date_eq]
    simp [List.mem_filter, hk, isDateKey]
  · rw [heuristics_score_eq]
    simp [List.mem_filter, hk, isScoreKey]
  · rw [heuristics_course_eq]
    simp [List.mem_filter, hk, isCourseKey]
  · rw [heuristics_tournament_eq]
    simp [List.mem_filter, hk, isTournamentKey]

/-- C7 witness: the exact-match rule places "R1" in the score group. -/
theorem c7_heuristic_groups_witness :
    "R1" ∈ (heuristics ["R1"]).score :=
  ((c7_heuristic_groups ["R1"] "R1" (by decide)).2.1).mpr (by decide)

/-- C8: the first report section is the header followed by the top-40
lines of the stable count-descending ranking of the key counter: the
ranking is a permutation of the counter, sorted so counts never increase,
entries of equal count keep the counter's order — and the counter's key
order is first-encounter order — and each line is the key left-padded to
30 characters, two spaces, then the count. -/
theorem c8_top_keys_section (st : Stats) (rs : List (List (String × JSON)))
    (c : Nat) :
    reportSection1 st
        = "\n=== TOP KEYS (most common) ==="
            :: ((sortByCountDesc st.keyCounts).take 40).map
                (fun e => padTo e.1 30 ++ "  " ++ toString e.2)
      ∧ List.Sorted byCountDesc (sortByCountDesc st.keyCounts)
      ∧ (sortByCountDesc st.keyCounts).Perm st.keyCounts
      ∧ (sortByCountDesc st.keyCounts).filter (fun e => e.2 == c)
          = st.keyCounts.filter (fun e => e.2 == c)
      ∧ (processRecords rs).keyCounts.map Prod.fst
          = firstSeenKeys (recordPairs rs) :=
  ⟨rfl, sortByCountDesc_sorted st.keyCounts, sortByCountDesc_perm st.keyCounts,
    filter_sortByCountDesc st.keyCounts c, mapFst_processRecords rs⟩

/-- C9: after accumulation, every key's stored sample list has length
min 5 (its frequency count); in particular every counted key keeps at
least one sample. -/
theorem c9_sample_length_invariant (rs : List (List (String × JSON)))
    (k : String) :
    (samplesOf (processRecords rs).sampleValues k).length
        = min 5 (countOf (processRecords rs).keyCounts k)
      ∧ (0 < countOf (processRecords rs).keyCounts k →
          1 ≤ (samplesOf (processRecords rs).sampleValues k).length) := by
  have hs := samplesOf_processRecords rs k
  have hc := countOf_processRecords rs k
  have hlen : (occValues k rs).length
      = (recordPairs rs).countP (fun p => p.1 == k) := by
    rw [occValues, List.length_map, ← List.countP_eq_length_filter]
  constructor
  · rw [hs, List.length_take, hlen, hc]
  · intro h
    rw [hs, List.length_take, hlen]
    rw [hc] at h
    omega

/-- C9 witness: one record with one key. -/
theorem c9_sample_length_invariant_witness :
    1 ≤ (samplesOf (processRecords [[("a", JSON.null)]]).sampleValues "a").length :=
  (c9_sample_length_invariant [[("a", JSON.null)]] "a").2 (by decide)

/-- C10: the run is a function of the directory-listing order and the
file contents alone — equal inputs give byte-for-byte equal output. -/
theorem c10_deterministic (d1 d2 : Bool) (e1 e2 : List (String × Option JSON))
    (hd : d1 = d2) (he : e1 = e2) :
    run d1 e1 = run d2 e2
      ∧ printedLines (run d1 e1) = printedLines (run d2 e2) := by
  subst hd
  subst he
  exact ⟨rfl, rfl⟩

/-- C10 witness: two runs of the same one-file corpus. -/
theorem c10_deterministic_witness :
    run true [("a.json", some (JSON.arr []))]
      = run true [("a.json", some (JSON.arr []))] :=
  (c10_deterministic true true [("a.json", some (JSON.arr []))]
    [("a.json", some (JSON.arr []))] rfl rfl).1

end InspectRoundsSchema
